import Mathlib

/-!
Verification of the BrowserMate AI search-and-retrieval core.

Shallow embedding of `src/lib/indexer.ts` (class `SearchIndexer`) and the
context-assembly part of `src/background/worker.ts`
(`BackgroundService.handleChatRequest`), together with the data model from
the type declarations (`IndexedItem`, `HistoryItem`, ...).

Strings are modelled as `List Char`; JavaScript string truthiness
(`undefined` and `""` are falsy) is modelled explicitly.  Scores are
rationals, timestamps are integers (epoch milliseconds), `Date.now()` is an
explicit `now : Int` parameter.  JavaScript `Map` objects are modelled as
insertion-ordered association lists.
-/

/-- Characters of a string literal (JS strings become `List Char`). -/
def lc (s : String) : List Char := s.data

/-- `String.prototype.toLowerCase` (ASCII range, which covers every cased
character appearing in the indexer's patterns). -/
def lowerStr (l : List Char) : List Char := l.map Char.toLower

/-- JS whitespace for `trim` / `\s` (the characters relevant here). -/
def isWS (c : Char) : Bool :=
  c = ' ' || c = '\t' || c = '\n' || c = '\r' || c.toNat = 11 || c.toNat = 12 || c.toNat = 0xa0

/-- `String.prototype.trim`. -/
def trimWS (l : List Char) : List Char :=
  (((l.dropWhile isWS).reverse).dropWhile isWS).reverse

/-- `hay.includes(needle)` (substring containment). -/
def containsSub (needle hay : List Char) : Bool :=
  hay.tails.any (fun t => needle.isPrefixOf t)

/-- Accumulator pass collecting maximal runs of characters satisfying `p`
(the reversed current run is carried along). -/
def runsAux (p : Char → Bool) : List Char → List Char → List (List Char)
  | [], acc => if acc.isEmpty then [] else [acc.reverse]
  | c :: cs, acc =>
    if p c then runsAux p cs (c :: acc)
    else if acc.isEmpty then runsAux p cs [] else acc.reverse :: runsAux p cs []

/-- Maximal runs of characters satisfying `p` (the matches of `/[class]+/g`,
and of `split(/\s+/)` on a trimmed string for `p = not-whitespace`). -/
def runsP (p : Char → Bool) (l : List Char) : List (List Char) :=
  runsAux p l []

/-- `Array.from(new Set(xs))`: duplicates removed, first occurrence kept. -/
def dedupFirstAux (seen : List (List Char)) : List (List Char) → List (List Char)
  | [] => []
  | x :: xs => if x ∈ seen then dedupFirstAux seen xs else x :: dedupFirstAux (x :: seen) xs

/-- Deduplication in first-seen order. -/
def dedupFirst (l : List (List Char)) : List (List Char) := dedupFirstAux [] l

/-- JS `a || b` for an optional string `a` (both `undefined` and `""` fall
through to the default). -/
def jsOrStr (o : Option (List Char)) (d : List Char) : List Char :=
  match o with
  | some s => if s.isEmpty then d else s
  | none => d

/-- JS truthiness of an optional string. -/
def truthyS (o : Option (List Char)) : Bool :=
  match o with
  | some s => !s.isEmpty
  | none => false

/-- JS `a || b` for an optional number (`undefined` and `0` are falsy). -/
def jsOrInt (o : Option Int) (d : Int) : Int :=
  match o with
  | some n => if n = 0 then d else n
  | none => d

/-- CJK unified ideographs, the class `[一-鿿]`. -/
def isCJKChar (c : Char) : Bool :=
  0x4e00 ≤ c.toNat && c.toNat ≤ 0x9fff

/-- Word characters of JS regex `\w` / the sides of a `\b` boundary. -/
def isWordChar (c : Char) : Bool :=
  ('a' ≤ c && c ≤ 'z') || ('A' ≤ c && c ≤ 'Z') || ('0' ≤ c && c ≤ '9') || c = '_'

/-- `\b` side classification of an optional character (outside the string
counts as a non-word position). -/
def wordOpt (o : Option Char) : Bool :=
  match o with
  | some c => isWordChar c
  | none => false

/-! ### Data model (`src/types/models.ts`) -/

/-- `IndexedItem.type`: `'bookmark' | 'history' | 'reading-list'`. -/
inductive ItemType : Type where
  | bookmark
  | history
  | readingList
deriving DecidableEq, Repr

/-- `IndexedItem` — the canonical document. -/
structure IndexedItem : Type where
  id : List Char
  title : List Char
  url : List Char
  content : List Char
  type : ItemType
  timestamp : Int
  snippet : Option (List Char)
deriving DecidableEq, Repr

/-- `SearchResult`. -/
structure SearchResult : Type where
  item : IndexedItem
  score : ℚ
  relevance : ℚ
deriving DecidableEq, Repr

/-- `HistoryItem` (raw history record). -/
structure HistoryItem : Type where
  id : List Char
  url : Option (List Char)
  title : Option (List Char)
  lastVisitTime : Option Int
  visitCount : Option Int
  typedCount : Option Int
deriving DecidableEq, Repr

/-- `ReadingListItem` (raw reading-list record). -/
structure ReadingListItem : Type where
  title : List Char
  url : List Char
  hasBeenRead : Bool
  creationTime : Int
  lastUpdateTime : Int
deriving DecidableEq, Repr

/-- `BookmarkItem` (raw bookmark tree node; `children` recursive). -/
inductive BookmarkItem : Type where
  | node (id : List Char) (title : List Char) (url : Option (List Char))
      (dateAdded : Option Int) (children : List BookmarkItem)

/-- `bookmark.url`. -/
def BookmarkItem.url : BookmarkItem → Option (List Char)
  | .node _ _ u _ _ => u

/-- `bookmark.title`. -/
def BookmarkItem.title : BookmarkItem → List Char
  | .node _ t _ _ _ => t

/-! ### The `listAllPatterns` regexes (`indexer.ts` lines 225-230)

Each pattern is an alternation of literal substrings plus a few `.*` / `.?`
gaps.  `.` is modelled as "any character except a newline", matching the JS
regex dot.  The `/i` flag is modelled by matching the (lowercase) literals
against the lowercased input. -/

/-- Continue a `w₁.*w₂.*…` match: each listed word (head char + tail) must
occur, in order, with no newline inside the gaps.  The `fuel` argument only
drives the structural recursion: every step consumes at least one character
of the string, so `fuel = s.length` never runs out. -/
def chainAfterFuel : Nat → List (Char × List Char) → List Char → Bool
  | _, [], _ => true
  | _, _ :: _, [] => false
  | 0, _ :: _, _ :: _ => false
  | fuel + 1, (a, w) :: ws, c :: cs =>
    (a == c && w.isPrefixOf cs && chainAfterFuel fuel ws (cs.drop w.length)) ||
    (c != '\n' && chainAfterFuel fuel ((a, w) :: ws) cs)

/-- `w₁.*w₂.*…` continuation with enough fuel for the whole string. -/
def chainAfter (ws : List (Char × List Char)) (s : List Char) : Bool :=
  chainAfterFuel s.length ws s

/-- A `w₁.*w₂.*…` sequence anchored at the start of the string. -/
def chainHere : List (Char × List Char) → List Char → Bool
  | [], _ => true
  | (a, w) :: ws, s => (a :: w).isPrefixOf s && chainAfter ws (s.drop (w.length + 1))

/-- Test of the regex `w₁.*w₂.*…` (words nonempty, given as head+tail). -/
def seqMatch (ws : List (Char × List Char)) (s : List Char) : Bool :=
  s.tails.any (fun t => chainHere ws t)

/-- Test of the regex `reading.?list` (optional middle character, not a
newline) against an already-lowercased string. -/
def readingOptList (s : List Char) : Bool :=
  s.tails.any (fun t =>
    (lc "reading").isPrefixOf t &&
      ((lc "list").isPrefixOf (t.drop 7) ||
        (match t.drop 7 with
         | c :: rest => c != '\n' && (lc "list").isPrefixOf rest
         | [] => false)))

/-- First `listAllPatterns` entry:
`/list|show|display|what.*do.*have|我的.*有什么|显示.*所有|列出/i`,
applied to an already-lowercased string. -/
def listPattern1 (l : List Char) : Bool :=
  containsSub (lc "list") l || containsSub (lc "show") l || containsSub (lc "display") l ||
  seqMatch [('w', lc "hat"), ('d', lc "o"), ('h', lc "ave")] l ||
  seqMatch [('我', lc "的"), ('有', lc "什么")] l ||
  seqMatch [('显', lc "示"), ('所', lc "有")] l ||
  containsSub (lc "列出") l

/-- Second entry: `/bookmarks?|书签/i` (containing `bookmark` suffices). -/
def listPattern2 (l : List Char) : Bool :=
  containsSub (lc "bookmark") l || containsSub (lc "书签") l

/-- Third entry: `/history|历史|浏览记录/i`. -/
def listPattern3 (l : List Char) : Bool :=
  containsSub (lc "history") l || containsSub (lc "历史") l || containsSub (lc "浏览记录") l

/-- Fourth entry: `/reading.?list|阅读清单|阅读列表/i`. -/
def listPattern4 (l : List Char) : Bool :=
  readingOptList l || containsSub (lc "阅读清单") l || containsSub (lc "阅读列表") l

/-- The "enumerate" vocabulary as a predicate of the lowercased query:
disjunction of the four `listAllPatterns` regexes. -/
def matchesEnumVocab (l : List Char) : Bool :=
  listPattern1 l || listPattern2 l || listPattern3 l || listPattern4 l

/-- `listAllPatterns.some(pattern => pattern.test(query))` — the `/i` flag
lowercases the input before the (lowercase) literals are matched. -/
def isListAllQuery (query : List Char) : Bool :=
  matchesEnumVocab (lowerStr query)

/-! ### Stop-word removal
`query.toLowerCase().replace(/\b(list|show|find|get|my|the|a|an|我的|显示|列出|查找)\b/g, '')`
(`indexer.ts` line 274).  `\b` is a transition between a `\w` character and a
non-`\w` character (string ends count as non-word).  The global replace scans
left to right; after a match the scan resumes right after it, so the
"previous character" context is the last character of the removed word. -/

/-- The stop-word alternation, in source order (JS alternation is
first-match-wins at a given position). -/
def stopWords : List (List Char) :=
  [lc "list", lc "show", lc "find", lc "get", lc "my", lc "the", lc "a", lc "an",
   lc "我的", lc "显示", lc "列出", lc "查找"]

/-- Does `\b(stopword)\b` match at the current position (given the previous
character)?  Returns the matched word. -/
def matchStopAt (prev : Option Char) (s : List Char) : Option (List Char) :=
  if wordOpt prev != wordOpt s.head? then
    stopWords.find? (fun w =>
      w.isPrefixOf s && (wordOpt w.getLast? != wordOpt ((s.drop w.length).head?)))
  else none

/-- One left-to-right pass of the global stop-word replace.  The `fuel`
argument only drives the structural recursion: every step consumes at least
one character (stop words are nonempty), so `fuel = s.length` never runs
out. -/
def removeStopsFuel : Nat → Option Char → List Char → List Char
  | _, _, [] => []
  | 0, _, _ :: _ => []
  | fuel + 1, prev, c :: cs =>
    match matchStopAt prev (c :: cs) with
    | some w => removeStopsFuel fuel w.getLast? ((c :: cs).drop w.length)
    | none => c :: removeStopsFuel fuel (some c) cs

/-- The global stop-word replace with enough fuel for the whole string. -/
def removeStops (prev : Option Char) (s : List Char) : List Char :=
  removeStopsFuel s.length prev s

/-- The cleaned query (`indexer.ts` lines 273-275). -/
def cleanQuery (query : List Char) : List Char :=
  trimWS (removeStops none (lowerStr query))

/-- Term extraction (`indexer.ts` lines 282-309): CJK queries are split into
CJK runs and Latin-letter runs; other queries split on whitespace keeping
tokens longer than 2 characters. -/
def extractTerms (cq : List Char) : List (List Char) :=
  if cq.any isCJKChar then
    ((runsP isCJKChar cq) ++ (runsP Char.isAlpha cq)).filter (fun t => t.length > 0)
  else
    (runsP (fun c => !isWS c) cq).filter (fun t => t.length > 2)

/-! ### The text index

Modelled from the spec: the FlexSearch index object (`flexsearch` is an
external npm dependency, its source is not part of this repository).  Spec
§4.2 `IndexStore.searchTerm`: "returns up to `limit` ids whose tokenized
content has a token with `term` as a prefix (forward tokenization)";
`add`/`remove` insert/overwrite and delete by id; `export` serializes to an
opaque string. -/

/-- Characters kept by the index tokenizer (letters, digits, CJK). -/
def isTokenChar (c : Char) : Bool := c.isAlphanum || isCJKChar c

/-- Tokenization of a document's content (lowercased, split at
non-token characters). -/
def flexTokenize (content : List Char) : List (List Char) :=
  runsP isTokenChar (lowerStr content)

/-- The in-memory text index: `(id, content)` entries in insertion order. -/
structure FlexIndex : Type where
  entries : List (List Char × List Char)
deriving DecidableEq, Repr

/-- `new FlexSearch.Index(...)`. -/
def emptyFlex : FlexIndex := ⟨[]⟩

/-- `index.add(id, content)`: insert, or overwrite the entry with this id. -/
def FlexIndex.add (ix : FlexIndex) (id content : List Char) : FlexIndex :=
  if ix.entries.any (fun e => decide (e.1 = id)) then
    ⟨ix.entries.map (fun e => if e.1 = id then (id, content) else e)⟩
  else
    ⟨ix.entries ++ [(id, content)]⟩

/-- `index.remove(id)`. -/
def FlexIndex.remove (ix : FlexIndex) (id : List Char) : FlexIndex :=
  ⟨ix.entries.filter (fun e => decide (e.1 ≠ id))⟩

/-- Does a forward-tokenized content match `term`? (some token has the
lowercased term as a prefix) -/
def flexMatches (term content : List Char) : Bool :=
  (flexTokenize content).any (fun tok => (lowerStr term).isPrefixOf tok)

/-- `index.search(term, { limit })`. -/
def FlexIndex.searchTerm (ix : FlexIndex) (term : List Char) (limit : Nat) :
    List (List Char) :=
  ((ix.entries.filter (fun e => flexMatches term e.2)).map (fun e => e.1)).take limit

/-- `index.export(...)` — an opaque serialization; only its length is ever
observed (by `getStats`). -/
def flexExport (ix : FlexIndex) : List Char :=
  (ix.entries.map (fun e => e.1 ++ e.2)).flatten

/-! ### Engine and storage state -/

/-- The mutable fields of the `SearchIndexer` singleton. -/
structure EngineState : Type where
  isInitialized : Bool
  index : FlexIndex
  items : List (List Char × IndexedItem)
deriving DecidableEq, Repr

/-- The key-value persistence service (`storage`), reduced to the keys the
indexer touches, plus the raw source collections it reads during rebuild. -/
structure StorageState : Type where
  indexedItems : List IndexedItem
  searchIndex : List Char
  bookmarks : List BookmarkItem
  history : List HistoryItem
  readingList : List ReadingListItem

/-- `Map.prototype.get`. -/
def mapGet (k : List Char) (m : List (List Char × IndexedItem)) : Option IndexedItem :=
  (m.find? (fun e => decide (e.1 = k))).map (fun e => e.2)

/-- `Map.prototype.set` (overwrite in place, or append). -/
def mapSet (k : List Char) (v : IndexedItem) (m : List (List Char × IndexedItem)) :
    List (List Char × IndexedItem) :=
  if m.any (fun e => decide (e.1 = k)) then
    m.map (fun e => if e.1 = k then (k, v) else e)
  else
    m ++ [(k, v)]

/-- `Map.prototype.delete`. -/
def mapDelete (k : List Char) (m : List (List Char × IndexedItem)) :
    List (List Char × IndexedItem) :=
  m.filter (fun e => decide (e.1 ≠ k))

/-- Every entry of the document map is stored under its item's id (true of
every state the class constructs, since `addToIndex` keys by `item.id`). -/
def ItemsWF (m : List (List Char × IndexedItem)) : Prop :=
  ∀ e ∈ m, e.2.id = e.1

instance (m : List (List Char × IndexedItem)) : Decidable (ItemsWF m) :=
  inferInstanceAs (Decidable (∀ e ∈ m, e.2.id = e.1))

/-! ### DocumentNormalizer (`indexer.ts` lines 132-194) -/

/-- `generateSnippet(content, 200)`. -/
def generateSnippet (content : List Char) : List Char :=
  if content.length ≤ 200 then content
  else trimWS (content.take 200) ++ lc "..."

/-- Template `` `${a} ${b}`.trim() ``. -/
def joinTrim (a b : List Char) : List Char :=
  trimWS (a ++ ' ' :: b)

/-- One emitted bookmark document (`processBookmark`, url present). -/
def bookmarkToItem (now : Int) (id title url : List Char) (dateAdded : Option Int) :
    IndexedItem :=
  { id := lc "bookmark_" ++ id
    title := if title.isEmpty then lc "Untitled" else title
    url := url
    content := joinTrim title url
    type := .bookmark
    timestamp := jsOrInt dateAdded now
    snippet := some (generateSnippet (joinTrim title url)) }

mutual

/-- `processBookmark`: emit a document if the node carries a (truthy) url,
then recurse into the children. -/
def processBookmark (now : Int) : BookmarkItem → List IndexedItem
  | .node id title url dateAdded children =>
    (match url with
     | some u => if u.isEmpty then [] else [bookmarkToItem now id title u dateAdded]
     | none => []) ++ processBookmarkList now children

/-- `bookmarks.forEach(processBookmark)` into a shared accumulator. -/
def processBookmarkList (now : Int) : List BookmarkItem → List IndexedItem
  | [] => []
  | b :: bs => processBookmark now b ++ processBookmarkList now bs

end

/-- `convertBookmarksToIndexedItems`. -/
def convertBookmarksToIndexedItems (now : Int) (bs : List BookmarkItem) :
    List IndexedItem :=
  processBookmarkList now bs

/-- The document built for one kept history record. -/
def histToItem (now : Int) (h : HistoryItem) : IndexedItem :=
  { id := lc "history_" ++ h.id
    title := jsOrStr h.title (lc "Untitled")
    url := jsOrStr h.url []
    content := joinTrim (jsOrStr h.title []) (jsOrStr h.url [])
    type := .history
    timestamp := jsOrInt h.lastVisitTime now
    snippet := some (generateSnippet (joinTrim (jsOrStr h.title []) (jsOrStr h.url []))) }

/-- `convertHistoryToIndexedItems`: `history.filter(item => item.url && item.title).map(...)`. -/
def convertHistoryToIndexedItems (now : Int) (hs : List HistoryItem) :
    List IndexedItem :=
  (hs.filter (fun h => truthyS h.url && truthyS h.title)).map (histToItem now)

/-- The document built for one reading-list record. -/
def readingToItem (r : ReadingListItem) : IndexedItem :=
  { id := lc "reading_" ++ r.url
    title := r.title
    url := r.url
    content := joinTrim r.title r.url
    type := .readingList
    timestamp := r.creationTime
    snippet := some (generateSnippet (joinTrim r.title r.url)) }

/-- `convertReadingListToIndexedItems`: every record, unconditionally. -/
def convertReadingListToIndexedItems (rs : List ReadingListItem) : List IndexedItem :=
  rs.map readingToItem

/-! ### IndexStore operations (`indexer.ts`) -/

/-- `addToIndex(item)` (lines 196-206): add to the text index (errors there
are caught and only logged) and store in the items map under `item.id`. -/
def addToIndex (s : EngineState) (item : IndexedItem) : EngineState :=
  { s with
    index := s.index.add item.id item.content
    items := mapSet item.id item s.items }

/-- `initialize()` (lines 27-76): if already initialized do nothing;
otherwise replay the persisted documents into a fresh index (or keep the
empty state when storage holds none).  Always ends initialized, even on a
storage failure (the catch also sets the flag). -/
def initEngine (s : EngineState) (st : StorageState) : EngineState :=
  if s.isInitialized then s
  else if st.indexedItems.isEmpty then { s with isInitialized := true }
  else
    st.indexedItems.foldl addToIndex
      { isInitialized := true, index := emptyFlex, items := [] }

/-- `calculateRelevanceScore(query, item)` (lines 347-371), with
`Date.now()` passed explicitly.  `daysSinceCreation < 30` is
`(now - timestamp) / 86400000 < 30` over rationals. -/
def calculateRelevanceScore (query : List Char) (item : IndexedItem) (now : Int) : ℚ :=
  (if lowerStr item.title = lowerStr query then 10 else 0) +
  (if containsSub (lowerStr query) (lowerStr item.title) then 5 else 0) +
  (if containsSub (lowerStr query) (lowerStr item.content) then 2 else 0) +
  (if ((now - item.timestamp : ℚ) / (1000 * 60 * 60 * 24)) < 30 then 1 else 0) +
  (if item.type = .bookmark then (1 / 2 : ℚ) else 0)

/-- Stable descending insertion (JS `Array.prototype.sort` is stable). -/
def insertDesc {α : Type} {K : Type} [LinearOrder K] (key : α → K) (x : α) :
    List α → List α
  | [] => [x]
  | y :: ys => if key y ≤ key x then x :: y :: ys else y :: insertDesc key x ys

/-- Stable sort by a key, descending (`sort((a, b) => keyB - keyA)`). -/
def sortKeyDesc {α : Type} {K : Type} [LinearOrder K] (key : α → K) :
    List α → List α
  | [] => []
  | x :: xs => insertDesc key x (sortKeyDesc key xs)

/-- Which source types an enumeration query asks for (lines 238-252): the
three `want…` regexes, defaulting to all three when none matches. -/
def includeTypes (query : List Char) : List ItemType :=
  let l := lowerStr query
  let wantBookmarks := containsSub (lc "bookmark") l || containsSub (lc "书签") l
  let wantHistory := listPattern3 l
  let wantReadingList := listPattern4 l
  let noneWanted := !wantBookmarks && !wantHistory && !wantReadingList
  (if wantBookmarks || noneWanted then [ItemType.bookmark] else []) ++
  (if wantHistory || noneWanted then [ItemType.history] else []) ++
  (if wantReadingList || noneWanted then [ItemType.readingList] else [])

/-- The per-position wrapping of the list-all results (lines 264-268):
score 10, relevance `(maxResults - index) / maxResults`. -/
def enumWithRel (maxResults : Nat) : Nat → List IndexedItem → List SearchResult
  | _, [] => []
  | i, it :: rest =>
    ⟨it, 10, ((maxResults : ℚ) - (i : ℚ)) / (maxResults : ℚ)⟩ ::
      enumWithRel maxResults (i + 1) rest

/-- The list-all branch (lines 234-268): filter the document-map values by
wanted type, sort newest first, truncate, wrap. -/
def enumSearch (s : EngineState) (query : List Char) (maxResults : Nat) :
    List SearchResult :=
  enumWithRel maxResults 0
    ((sortKeyDesc (fun it => it.timestamp)
        ((s.items.map (fun e => e.2)).filter
          (fun it => (includeTypes query).contains it.type))).take maxResults)

/-- The conversion loop (lines 317-334): walk the first
`min(length, maxResults)` raw ids, look each up in the items map (missing
ids are skipped with a warning), score and attach position-based relevance. -/
def scoreLoop (items : List (List Char × IndexedItem)) (cq : List Char) (now : Int)
    (maxResults : Nat) : Nat → List (List Char) → List SearchResult
  | _, [] => []
  | i, id :: rest =>
    match mapGet id items with
    | some it =>
      ⟨it, calculateRelevanceScore cq it now,
        ((maxResults : ℚ) - (i : ℚ)) / (maxResults : ℚ)⟩ ::
        scoreLoop items cq now maxResults (i + 1) rest
    | none => scoreLoop items cq now maxResults (i + 1) rest

/-- The accumulation of `this.index.search(term, { limit: maxResults * 2 })`
over all extracted terms; the oracle stands for the index call and may
raise (modelled as `Except`). -/
def keywordRawIds (oracle : List Char → Nat → Except (List Char) (List (List Char)))
    (terms : List (List Char)) (maxResults : Nat) :
    Except (List Char) (List (List Char)) :=
  terms.foldlM (fun acc t => (oracle t (maxResults * 2)).map (fun r => acc ++ r)) []

/-- The same accumulation against the concrete FlexSearch model (the pure
value `keywordRawIds` produces under `flexOracle`). -/
def flexRawIds (ix : FlexIndex) (terms : List (List Char)) (maxResults : Nat) :
    List (List Char) :=
  terms.foldl (fun acc t => acc ++ ix.searchTerm t (maxResults * 2)) []

/-- The keyword branch of the `try` body (lines 271-340). -/
def keywordBody (s : EngineState)
    (oracle : List Char → Nat → Except (List Char) (List (List Char)))
    (query : List Char) (maxResults : Nat) (now : Int) :
    Except (List Char) (List SearchResult) :=
  (keywordRawIds oracle (extractTerms (cleanQuery query)) maxResults).map (fun raw =>
    sortKeyDesc (fun r => r.score + r.relevance)
      (scoreLoop s.items (cleanQuery query) now maxResults 0
        ((dedupFirst raw).take maxResults)))

/-- The whole `try` body of `search` (lines 223-340): dispatch on the
list-all classification. -/
def searchBodyE (s : EngineState)
    (oracle : List Char → Nat → Except (List Char) (List (List Char)))
    (query : List Char) (maxResults : Nat) (now : Int) :
    Except (List Char) (List SearchResult) :=
  if isListAllQuery query then .ok (enumSearch s query maxResults)
  else keywordBody s oracle query maxResults now

/-- The keyword strategy as the caller observes it (the surrounding `catch`
turns an index error into `[]`). -/
def keywordSearchTotal (s : EngineState)
    (oracle : List Char → Nat → Except (List Char) (List (List Char)))
    (query : List Char) (maxResults : Nat) (now : Int) : List SearchResult :=
  match keywordBody s oracle query maxResults now with
  | .ok r => r
  | .error _ => []

/-- `search` on an initialized engine (lines 208-345): empty/whitespace
query → `[]`; empty document map → `[]`; otherwise the `try` body, with any
error caught and turned into `[]`. -/
def searchReadyW (s : EngineState)
    (oracle : List Char → Nat → Except (List Char) (List (List Char)))
    (query : List Char) (maxResults : Nat) (now : Int) : List SearchResult :=
  if trimWS query = [] then []
  else if s.items.isEmpty then []
  else
    match searchBodyE s oracle query maxResults now with
    | .ok r => r
    | .error _ => []

/-- `search(query, maxResults)` with an explicit index oracle (lazy
initialization first). -/
def searchWith (s : EngineState) (st : StorageState)
    (oracle : List Char → Nat → Except (List Char) (List (List Char)))
    (query : List Char) (maxResults : Nat) (now : Int) : List SearchResult :=
  searchReadyW (initEngine s st) oracle query maxResults now

/-- The oracle of the actual FlexSearch index: never raises. -/
def flexOracle (ix : FlexIndex) :
    List Char → Nat → Except (List Char) (List (List Char)) :=
  fun t n => .ok (ix.searchTerm t n)

/-- `SearchIndexer.search(query, maxResults)`. -/
def search (s : EngineState) (st : StorageState) (query : List Char)
    (maxResults : Nat) (now : Int) : List SearchResult :=
  searchReadyW (initEngine s st) (flexOracle (initEngine s st).index)
    query maxResults now

/-- `addItem(item)` (lines 373-385): initialize, index, persist, append to
the stored document collection. -/
def addItem (s : EngineState) (st : StorageState) (item : IndexedItem) :
    EngineState × StorageState :=
  let s1 := addToIndex (initEngine s st) item
  (s1, { st with
          searchIndex := flexExport s1.index
          indexedItems := st.indexedItems ++ [item] })

/-- `removeItem(itemId)` (lines 387-402): initialize, remove from index and
map, persist, filter the stored document collection. -/
def removeItem (s : EngineState) (st : StorageState) (itemId : List Char) :
    EngineState × StorageState :=
  let s0 := initEngine s st
  let s1 := { s0 with index := s0.index.remove itemId, items := mapDelete itemId s0.items }
  (s1, { st with
          searchIndex := flexExport s1.index
          indexedItems := st.indexedItems.filter (fun it => decide (it.id ≠ itemId)) })

/-- `getStats()` (lines 427-439): `{0, 0}` before initialization (no storage
read); afterwards the map size and the length of the persisted blob. -/
def getStats (s : EngineState) (st : StorageState) : Nat × Nat :=
  if s.isInitialized then (s.items.length, st.searchIndex.length)
  else (0, 0)

/-! ### `rebuildIndex()` (lines 78-130) as an interleaving model

The method first replaces the index with a fresh one and clears the items
map, then `await`s the three storage reads, then converts and adds every
item synchronously, then `await`s the persistence writes.  A concurrently
scheduled `search` can therefore run at the `await` boundaries and observe
exactly two in-memory engine states: the cleared one and the fully rebuilt
one. -/

/-- The state right after `this.index = new FlexSearch.Index(...);
this.items.clear()`. -/
def rebuildClear (s : EngineState) : EngineState :=
  { s with index := emptyFlex, items := [] }

/-- The documents a rebuild constructs from storage. -/
def rebuildItems (st : StorageState) (now : Int) : List IndexedItem :=
  convertBookmarksToIndexedItems now st.bookmarks ++
  convertHistoryToIndexedItems now st.history ++
  convertReadingListToIndexedItems st.readingList

/-- The in-memory engine state after the add loop. -/
def rebuildFinalEngine (s : EngineState) (st : StorageState) (now : Int) :
    EngineState :=
  (rebuildItems st now).foldl addToIndex (rebuildClear s)

/-- `rebuildIndex()` end-to-end (engine plus storage write-back). -/
def rebuildIndex (s : EngineState) (st : StorageState) (now : Int) :
    EngineState × StorageState :=
  let s1 := rebuildFinalEngine s st now
  (s1, { st with
          searchIndex := flexExport s1.index
          indexedItems := s1.items.map (fun e => e.2) })

/-- The engine states observable by a `search` interleaved at the `await`
points of `rebuildIndex`. -/
def rebuildObservable (s : EngineState) (st : StorageState) (now : Int) :
    List EngineState :=
  [rebuildClear s, rebuildFinalEngine s st now]

/-! ### ContextAssembler (`worker.ts` lines 266-300) -/

/-- `settings.enabledSources`. -/
structure EnabledSources : Type where
  bookmarks : Bool
  history : Bool
  readingList : Bool
deriving DecidableEq, Repr

/-- The settings fields `handleChatRequest` consults. -/
structure AppSettings : Type where
  enabledSources : EnabledSources
  maxResults : Nat
deriving DecidableEq, Repr

/-- The `switch` over `result.item.type` (lines 273-285). -/
def sourceEnabled (es : EnabledSources) : ItemType → Bool
  | .bookmark => es.bookmarks
  | .history => es.history
  | .readingList => es.readingList

/-- One entry of the RAG context (lines 294-300). -/
structure ContextEntry : Type where
  title : List Char
  url : List Char
  snippet : List Char
  type : ItemType
  timestamp : Int
deriving DecidableEq, Repr

/-- The projection of one search result
(`snippet: result.item.snippet || result.item.content.substring(0, 200)`). -/
def projectEntry (r : SearchResult) : ContextEntry :=
  { title := r.item.title
    url := r.item.url
    snippet := jsOrStr r.item.snippet (r.item.content.take 200)
    type := r.item.type
    timestamp := r.item.timestamp }

/-- The filter + truncate + project pipeline of `handleChatRequest`
(lines 269-300). -/
def handleChatRequestContext (results : List SearchResult) (settings : AppSettings) :
    List ContextEntry :=
  ((results.filter (fun r => sourceEnabled settings.enabledSources r.item.type)).take
      settings.maxResults).map projectEntry

/-! ### Concrete fixtures (used to instantiate the theorems below) -/

/-- Empty storage. -/
def exSt0 : StorageState := ⟨[], [], [], [], []⟩

/-- A history document titled `the zebra`. -/
def exDocA : IndexedItem :=
  ⟨lc "a", lc "the zebra", lc "ua", lc "the zebra ua", .history, 0, none⟩

/-- A history document titled `zebra`. -/
def exDocB : IndexedItem :=
  ⟨lc "b", lc "zebra", lc "ub", lc "zebra ub", .history, 0, none⟩

/-- An initialized engine holding `exDocA` and `exDocB`. -/
def exStateAB : EngineState :=
  ⟨true, ⟨[(lc "a", exDocA.content), (lc "b", exDocB.content)]⟩,
    [(lc "a", exDocA), (lc "b", exDocB)]⟩

/-- A bookmark document with timestamp 5. -/
def exBm1 : IndexedItem := ⟨lc "b1", lc "t1", lc "u1", lc "t1 u1", .bookmark, 5, none⟩

/-- A second bookmark document with the same timestamp 5. -/
def exBm2 : IndexedItem := ⟨lc "b2", lc "t2", lc "u2", lc "t2 u2", .bookmark, 5, none⟩

/-- An initialized engine holding the two equal-timestamp bookmarks. -/
def exStateBm : EngineState :=
  ⟨true, ⟨[(lc "b1", exBm1.content), (lc "b2", exBm2.content)]⟩,
    [(lc "b1", exBm1), (lc "b2", exBm2)]⟩

/-- Four index entries: two contents starting `aaa`, two starting `bbb`. -/
def exIx4 : FlexIndex :=
  ⟨[(lc "1", lc "aaa x"), (lc "2", lc "aaa y"), (lc "3", lc "bbb x"), (lc "4", lc "bbb y")]⟩

/-- A pre-rebuild document whose content matches `zzz`. -/
def exDocOld : IndexedItem := ⟨lc "old1", lc "zzz", lc "u", lc "zzz u", .history, 1, none⟩

/-- The engine before a rebuild: one searchable document. -/
def exStateOld : EngineState :=
  ⟨true, ⟨[(lc "old1", exDocOld.content)]⟩, [(lc "old1", exDocOld)]⟩

/-- Storage holding one reading-list record (also matching `zzz`) that the
rebuild will ingest. -/
def exStRebuild : StorageState :=
  ⟨[], [], [], [], [⟨lc "zzz new", lc "nu", false, 2, 2⟩]⟩

/-- A history record whose `url` is present but the empty string. -/
def exBadHist : HistoryItem := ⟨lc "h1", some [], some (lc "t"), some 1, none, none⟩

/-- A bookmark document used for the add/add/remove scenario. -/
def exItemX : IndexedItem := ⟨lc "x1", lc "fox", lc "u", lc "fox u", .bookmark, 0, none⟩

/-- An initialized engine with an empty index and map. -/
def exStateEmpty : EngineState := ⟨true, emptyFlex, []⟩

/-- The engine/storage state after `addItem(exItemX)` twice and
`removeItem("x1")` once, starting from the empty engine. -/
def exAfterRemove : EngineState × StorageState :=
  removeItem (addItem (addItem exStateEmpty exSt0 exItemX).1
      (addItem exStateEmpty exSt0 exItemX).2 exItemX).1
    (addItem (addItem exStateEmpty exSt0 exItemX).1
      (addItem exStateEmpty exSt0 exItemX).2 exItemX).2 (lc "x1")

/-- An index oracle that always raises (models a FlexSearch failure). -/
def errOracle : List Char → Nat → Except (List Char) (List (List Char)) :=
  fun _ _ => .error (lc "boom")

/-! ## Supporting lemmas -/

theorem mem_insertDesc {α K : Type} [LinearOrder K] (key : α → K) (x a : α)
    (l : List α) : a ∈ insertDesc key x l ↔ a = x ∨ a ∈ l := by
  induction l with
  | nil => simp [insertDesc]
  | cons y ys ih =>
    simp only [insertDesc]
    split
    · simp
    · simp only [List.mem_cons, ih]
      tauto

theorem mem_sortKeyDesc {α K : Type} [LinearOrder K] (key : α → K) (a : α)
    (l : List α) : a ∈ sortKeyDesc key l ↔ a ∈ l := by
  induction l with
  | nil => simp [sortKeyDesc]
  | cons x xs ih =>
    simp only [sortKeyDesc, mem_insertDesc, ih, List.mem_cons]

theorem pairwise_insertDesc {α K : Type} [LinearOrder K] (key : α → K) (x : α)
    {l : List α} (h : l.Pairwise (fun a b => key b ≤ key a)) :
    (insertDesc key x l).Pairwise (fun a b => key b ≤ key a) := by
  induction l with
  | nil => simp [insertDesc]
  | cons y ys ih =>
    rw [List.pairwise_cons] at h
    simp only [insertDesc]
    split
    · rename_i hyx
      refine List.pairwise_cons.mpr ⟨?_, List.pairwise_cons.mpr ⟨h.1, h.2⟩⟩
      intro b hb
      rcases List.mem_cons.mp hb with hb | hb
      · exact hb ▸ hyx
      · exact le_trans (h.1 b hb) hyx
    · rename_i hyx
      refine List.pairwise_cons.mpr ⟨?_, ih h.2⟩
      intro b hb
      rcases (mem_insertDesc key x b ys).mp hb with hb | hb
      · exact hb ▸ le_of_lt (lt_of_not_le hyx)
      · exact h.1 b hb

theorem pairwise_sortKeyDesc {α K : Type} [LinearOrder K] (key : α → K)
    (l : List α) : (sortKeyDesc key l).Pairwise (fun a b => key b ≤ key a) := by
  induction l with
  | nil => simp [sortKeyDesc]
  | cons x xs ih => exact pairwise_insertDesc key x ih

theorem sortKeyDesc_head {α K : Type} [LinearOrder K] (key : α → K) (x : α)
    {l : List α} (hx : x ∈ l) (hmax : ∀ y ∈ l, y ≠ x → key y < key x) :
    ∃ t, sortKeyDesc key l = x :: t := by
  have hmem : x ∈ sortKeyDesc key l := (mem_sortKeyDesc key x l).mpr hx
  match hsort : sortKeyDesc key l with
  | [] => rw [hsort] at hmem; exact absurd hmem (List.not_mem_nil x)
  | h :: t =>
    by_cases hhx : h = x
    · exact ⟨t, by rw [hhx]⟩
    · exfalso
      have hh : h ∈ l := (mem_sortKeyDesc key h l).mp (hsort ▸ List.mem_cons_self h t)
      have hlt : key h < key x := hmax h hh hhx
      have hxt : x ∈ t := by
        rw [hsort] at hmem
        rcases List.mem_cons.mp hmem with hc | hc
        · exact absurd hc.symm hhx
        · exact hc
      have hpw := pairwise_sortKeyDesc key l
      rw [hsort, List.pairwise_cons] at hpw
      exact absurd (hpw.1 x hxt) (not_le_of_lt hlt)

theorem mem_dedupFirstAux {seen l : List (List Char)} {x : List Char}
    (h : x ∈ dedupFirstAux seen l) : x ∈ l ∧ x ∉ seen := by
  induction l generalizing seen with
  | nil => simp [dedupFirstAux] at h
  | cons y ys ih =>
    simp only [dedupFirstAux] at h
    split at h
    · have := ih h
      exact ⟨List.mem_cons_of_mem y this.1, this.2⟩
    · rename_i hy
      rcases List.mem_cons.mp h with hc | hc
      · exact ⟨hc ▸ List.mem_cons_self y ys, hc ▸ hy⟩
      · have := ih hc
        refine ⟨List.mem_cons_of_mem y this.1, fun hs => this.2 (List.mem_cons_of_mem y hs)⟩

theorem nodup_dedupFirstAux (seen l : List (List Char)) :
    (dedupFirstAux seen l).Nodup := by
  induction l generalizing seen with
  | nil => simp [dedupFirstAux]
  | cons y ys ih =>
    simp only [dedupFirstAux]
    split
    · exact ih seen
    · refine List.nodup_cons.mpr ⟨fun hmem => ?_, ih (y :: seen)⟩
      exact (mem_dedupFirstAux hmem).2 (List.mem_cons_self y seen)

theorem nodup_dedupFirst (l : List (List Char)) : (dedupFirst l).Nodup :=
  nodup_dedupFirstAux [] l

theorem length_dedupFirstAux_le (seen l : List (List Char)) :
    (dedupFirstAux seen l).length ≤ l.length := by
  induction l generalizing seen with
  | nil => simp [dedupFirstAux]
  | cons y ys ih =>
    simp only [dedupFirstAux]
    split
    · exact le_trans (ih seen) (Nat.le_succ ys.length)
    · simpa using ih (y :: seen)

theorem length_dedupFirst_le (l : List (List Char)) :
    (dedupFirst l).length ≤ l.length :=
  length_dedupFirstAux_le [] l

theorem mem_of_mem_dedupFirst {l : List (List Char)} {x : List Char}
    (h : x ∈ dedupFirst l) : x ∈ l :=
  (mem_dedupFirstAux h).1

theorem mapGet_mem {k : List Char} {m : List (List Char × IndexedItem)}
    {v : IndexedItem} (h : mapGet k m = some v) :
    ∃ e ∈ m, e.1 = k ∧ e.2 = v := by
  unfold mapGet at h
  match hf : m.find? (fun e => decide (e.1 = k)) with
  | none => rw [hf] at h; exact absurd h (by simp)
  | some e =>
    rw [hf] at h
    have hmem := List.mem_of_find?_eq_some hf
    have hpred := List.find?_some hf
    simp only [decide_eq_true_eq] at hpred
    simp only [Option.map_some'] at h
    exact ⟨e, hmem, hpred, by injection h⟩

theorem mapGet_wf {k : List Char} {m : List (List Char × IndexedItem)}
    {v : IndexedItem} (hwf : ItemsWF m) (h : mapGet k m = some v) : v.id = k := by
  obtain ⟨e, hmem, hk, hv⟩ := mapGet_mem h
  rw [← hv, hwf e hmem, hk]

theorem itemsWF_mapSet {m : List (List Char × IndexedItem)} (it : IndexedItem)
    (hwf : ItemsWF m) : ItemsWF (mapSet it.id it m) := by
  intro e he
  unfold mapSet at he
  split at he
  · rcases List.mem_map.mp he with ⟨e0, he0, heq⟩
    by_cases h0 : e0.1 = it.id
    · simp only [h0, if_pos] at heq
      rw [← heq]
    · simp only [h0, if_neg, if_false] at heq
      exact heq ▸ hwf e0 he0
  · rcases List.mem_append.mp he with hc | hc
    · exact hwf e hc
    · have : e = (it.id, it) := List.mem_singleton.mp hc
      rw [this]

theorem itemsWF_mapDelete {m : List (List Char × IndexedItem)} (k : List Char)
    (hwf : ItemsWF m) : ItemsWF (mapDelete k m) := by
  intro e he
  exact hwf e (List.mem_of_mem_filter he)

theorem mapDelete_key_ne {m : List (List Char × IndexedItem)} {k : List Char}
    {e : List Char × IndexedItem} (he : e ∈ mapDelete k m) : e.1 ≠ k := by
  have := List.of_mem_filter he
  simpa using this

theorem itemsWF_addToIndex {s : EngineState} (it : IndexedItem)
    (hwf : ItemsWF s.items) : ItemsWF (addToIndex s it).items :=
  itemsWF_mapSet it hwf

theorem itemsWF_foldl_addToIndex (l : List IndexedItem) (s : EngineState)
    (hwf : ItemsWF s.items) : ItemsWF (l.foldl addToIndex s).items := by
  induction l generalizing s with
  | nil => exact hwf
  | cons x xs ih => exact ih (addToIndex s x) (itemsWF_addToIndex x hwf)

theorem foldl_addToIndex_isInitialized (l : List IndexedItem) (s : EngineState) :
    (l.foldl addToIndex s).isInitialized = s.isInitialized := by
  induction l generalizing s with
  | nil => rfl
  | cons x xs ih => exact ih (addToIndex s x)

theorem initEngine_isInitialized (s : EngineState) (st : StorageState) :
    (initEngine s st).isInitialized = true := by
  unfold initEngine
  split
  · assumption
  · split
    · rfl
    · rw [foldl_addToIndex_isInitialized]

theorem itemsWF_initEngine {s : EngineState} (st : StorageState)
    (hwf : ItemsWF s.items) : ItemsWF (initEngine s st).items := by
  unfold initEngine
  split
  · exact hwf
  · split
    · exact hwf
    · exact itemsWF_foldl_addToIndex st.indexedItems _ (by intro e he; simp at he)

theorem initEngine_of_isInitialized {s : EngineState} (st : StorageState)
    (h : s.isInitialized = true) : initEngine s st = s := by
  unfold initEngine
  rw [h]
  simp

theorem scoreLoop_mem {items : List (List Char × IndexedItem)} {cq : List Char}
    {now : Int} {maxResults : Nat} {i : Nat} {ids : List (List Char)}
    {r : SearchResult} (h : r ∈ scoreLoop items cq now maxResults i ids) :
    ∃ id ∈ ids, mapGet id items = some r.item ∧
      r.score = calculateRelevanceScore cq r.item now ∧
      ∃ j, i ≤ j ∧ j < i + ids.length ∧
        r.relevance = ((maxResults : ℚ) - (j : ℚ)) / (maxResults : ℚ) := by
  induction ids generalizing i with
  | nil => simp [scoreLoop] at h
  | cons id rest ih =>
    simp only [scoreLoop] at h
    split at h
    · rename_i it hget
      rcases List.mem_cons.mp h with hc | hc
      · refine ⟨id, List.mem_cons_self id rest, ?_, ?_, i, le_refl i, ?_, ?_⟩
        · rw [hc]; exact hget
        · rw [hc]
        · simp only [List.length_cons]; omega
        · rw [hc]
      · obtain ⟨id2, hid2, hget2, hsc, j, hj1, hj2, hrel⟩ := ih hc
        exact ⟨id2, List.mem_cons_of_mem id hid2, hget2, hsc, j, by omega,
          by simp only [List.length_cons]; omega, hrel⟩
    · obtain ⟨id2, hid2, hget2, hsc, j, hj1, hj2, hrel⟩ := ih h
      exact ⟨id2, List.mem_cons_of_mem id hid2, hget2, hsc, j, by omega,
        by simp only [List.length_cons]; omega, hrel⟩

theorem scoreLoop_mem_of_get {items : List (List Char × IndexedItem)}
    {cq : List Char} {now : Int} {maxResults : Nat} {ids : List (List Char)}
    {id : List Char} {d : IndexedItem} (i : Nat) (hid : id ∈ ids)
    (hget : mapGet id items = some d) :
    ∃ j, i ≤ j ∧ j < i + ids.length ∧
      (⟨d, calculateRelevanceScore cq d now,
        ((maxResults : ℚ) - (j : ℚ)) / (maxResults : ℚ)⟩ : SearchResult) ∈
        scoreLoop items cq now maxResults i ids := by
  induction ids generalizing i with
  | nil => exact absurd hid (List.not_mem_nil id)
  | cons id0 rest ih =>
    rcases List.mem_cons.mp hid with hc | hc
    · refine ⟨i, le_refl i, by simp only [List.length_cons]; omega, ?_⟩
      simp only [scoreLoop, ← hc, hget]
      exact List.mem_cons_self _ _
    · simp only [scoreLoop]
      split
      · obtain ⟨j, hj1, hj2, hmem⟩ := ih (i + 1) hc
        exact ⟨j, by omega, by simp only [List.length_cons]; omega,
          List.mem_cons_of_mem _ hmem⟩
      · obtain ⟨j, hj1, hj2, hmem⟩ := ih (i + 1) hc
        exact ⟨j, by omega, by simp only [List.length_cons]; omega, hmem⟩

theorem scoreLoop_item_unique {items : List (List Char × IndexedItem)}
    {cq : List Char} {now : Int} {maxResults : Nat} {i : Nat}
    {ids : List (List Char)} (hwf : ItemsWF items) (hnd : ids.Nodup)
    {r1 r2 : SearchResult} (h1 : r1 ∈ scoreLoop items cq now maxResults i ids)
    (h2 : r2 ∈ scoreLoop items cq now maxResults i ids)
    (heq : r1.item = r2.item) : r1 = r2 := by
  induction ids generalizing i with
  | nil => simp [scoreLoop] at h1
  | cons id rest ih =>
    have hnd2 := List.nodup_cons.mp hnd
    simp only [scoreLoop] at h1 h2
    cases hget : mapGet id items with
    | some it =>
      simp only [hget] at h1 h2
      rcases List.mem_cons.mp h1 with hc1 | hc1 <;>
        rcases List.mem_cons.mp h2 with hc2 | hc2
      · rw [hc1, hc2]
      · exfalso
        obtain ⟨id2, hid2, hget2, _, _⟩ := scoreLoop_mem hc2
        have : r2.item.id = id2 := mapGet_wf hwf hget2
        have hr1 : r1.item.id = id := by
          rw [hc1]
          exact mapGet_wf hwf hget
        rw [← heq, hr1] at this
        exact hnd2.1 (this ▸ hid2)
      · exfalso
        obtain ⟨id2, hid2, hget2, _, _⟩ := scoreLoop_mem hc1
        have : r1.item.id = id2 := mapGet_wf hwf hget2
        have hr2 : r2.item.id = id := by
          rw [hc2]
          exact mapGet_wf hwf hget
        rw [heq, hr2] at this
        exact hnd2.1 (this ▸ hid2)
      · exact ih hnd2.2 hc1 hc2
    | none =>
      simp only [hget] at h1 h2
      exact ih hnd2.2 h1 h2

theorem enumWithRel_map_item (maxResults : Nat) (i : Nat) (l : List IndexedItem) :
    (enumWithRel maxResults i l).map (fun r => r.item) = l := by
  induction l generalizing i with
  | nil => rfl
  | cons x xs ih => simp only [enumWithRel, List.map_cons, ih]

theorem enumWithRel_score (maxResults : Nat) (i : Nat) (l : List IndexedItem)
    {r : SearchResult} (h : r ∈ enumWithRel maxResults i l) : r.score = 10 := by
  induction l generalizing i with
  | nil => simp [enumWithRel] at h
  | cons x xs ih =>
    rcases List.mem_cons.mp h with hc | hc
    · rw [hc]
    · exact ih (i + 1) hc

theorem enumWithRel_rel_range (maxResults : Nat) (i : Nat) (l : List IndexedItem)
    {r : SearchResult} (h : r ∈ enumWithRel maxResults i l) :
    ∃ j, i ≤ j ∧ j < i + l.length ∧
      r.relevance = ((maxResults : ℚ) - (j : ℚ)) / (maxResults : ℚ) := by
  induction l generalizing i with
  | nil => simp [enumWithRel] at h
  | cons x xs ih =>
    rcases List.mem_cons.mp h with hc | hc
    · exact ⟨i, le_refl i, by simp only [List.length_cons]; omega, by rw [hc]⟩
    · obtain ⟨j, hj1, hj2, hrel⟩ := ih (i + 1) hc
      exact ⟨j, by omega, by simp only [List.length_cons]; omega, hrel⟩

theorem enumWithRel_rel_strict (maxResults : Nat) (i : Nat) (l : List IndexedItem)
    (hfit : i + l.length ≤ maxResults) :
    ((enumWithRel maxResults i l).map (fun r => r.relevance)).Pairwise
      (fun a b => b < a) := by
  induction l generalizing i with
  | nil => simp [enumWithRel]
  | cons x xs ih =>
    simp only [enumWithRel, List.map_cons]
    refine List.pairwise_cons.mpr
      ⟨?_, ih (i + 1) (by simp only [List.length_cons] at hfit; omega)⟩
    intro b hb
    rcases List.mem_map.mp hb with ⟨r, hr, hrb⟩
    obtain ⟨j, hj1, hj2, hrel⟩ := enumWithRel_rel_range maxResults (i + 1) xs hr
    rw [← hrb, hrel]
    have hmpos : 0 < (maxResults : ℚ) := by
      have : 0 < maxResults := by simp only [List.length_cons] at hfit; omega
      exact_mod_cast this
    apply div_lt_div_of_pos_right ?_ hmpos
    have : i < j := by omega
    have hji : (i : ℚ) < (j : ℚ) := by exact_mod_cast this
    linarith

theorem enumWithRel_length (maxResults : Nat) (i : Nat) (l : List IndexedItem) :
    (enumWithRel maxResults i l).length = l.length := by
  induction l generalizing i with
  | nil => rfl
  | cons x xs ih => simp only [enumWithRel, List.length_cons, ih]

theorem toLower_idem (c : Char) : c.toLower.toLower = c.toLower := by
  unfold Char.toLower
  by_cases h : c.toNat ≥ 65 ∧ c.toNat ≤ 90
  · rw [if_pos h]
    have hvalid : (c.toNat + 32).isValidChar := Or.inl (by omega)
    have hval : (Char.ofNat (c.toNat + 32)).toNat = c.toNat + 32 := by
      rw [Char.ofNat, dif_pos hvalid]
      rfl
    rw [if_neg]
    rw [hval]
    omega
  · rw [if_neg h, if_neg h]

theorem lowerStr_idem (l : List Char) : lowerStr (lowerStr l) = lowerStr l := by
  unfold lowerStr
  rw [List.map_map]
  exact List.map_congr_left (fun c _ => toLower_idem c)

theorem containsSub_self (l : List Char) : containsSub l l = true := by
  unfold containsSub
  rw [List.any_eq_true]
  refine ⟨l, ?_, ?_⟩
  · exact (List.mem_tails l l).mpr (List.suffix_refl l)
  · exact List.isPrefixOf_iff_prefix.mpr (List.prefix_refl l)

theorem keywordRawIds_flexAux (ix : FlexIndex) (terms : List (List Char))
    (maxResults : Nat) (acc : List (List Char)) :
    terms.foldlM
        (fun a t => (flexOracle ix t (maxResults * 2)).map (fun r => a ++ r)) acc =
      Except.ok (terms.foldl (fun a t => a ++ ix.searchTerm t (maxResults * 2)) acc) := by
  induction terms generalizing acc with
  | nil => rfl
  | cons t ts ih =>
    simp only [List.foldlM_cons, List.foldl_cons]
    exact ih (acc ++ ix.searchTerm t (maxResults * 2))

theorem keywordRawIds_flex (ix : FlexIndex) (terms : List (List Char))
    (maxResults : Nat) :
    keywordRawIds (flexOracle ix) terms maxResults =
      Except.ok (flexRawIds ix terms maxResults) :=
  keywordRawIds_flexAux ix terms maxResults []

theorem searchTerm_length_le (ix : FlexIndex) (t : List Char) (n : Nat) :
    (ix.searchTerm t n).length ≤ n := by
  unfold FlexIndex.searchTerm
  rw [List.length_take]
  exact min_le_left n _

theorem flexRawIds_lengthAux (ix : FlexIndex) (terms : List (List Char))
    (maxResults : Nat) (acc : List (List Char)) :
    (terms.foldl (fun a t => a ++ ix.searchTerm t (maxResults * 2)) acc).length ≤
      acc.length + terms.length * (maxResults * 2) := by
  induction terms generalizing acc with
  | nil => simp
  | cons t ts ih =>
    simp only [List.foldl_cons, List.length_cons]
    calc (ts.foldl (fun a u => a ++ ix.searchTerm u (maxResults * 2))
            (acc ++ ix.searchTerm t (maxResults * 2))).length ≤
        (acc ++ ix.searchTerm t (maxResults * 2)).length + ts.length * (maxResults * 2) :=
          ih (acc ++ ix.searchTerm t (maxResults * 2))
      _ ≤ acc.length + (ts.length + 1) * (maxResults * 2) := by
          rw [List.length_append]
          have := searchTerm_length_le ix t (maxResults * 2)
          nlinarith

theorem flexRawIds_length_le (ix : FlexIndex) (terms : List (List Char))
    (maxResults : Nat) :
    (flexRawIds ix terms maxResults).length ≤ terms.length * (maxResults * 2) := by
  have := flexRawIds_lengthAux ix terms maxResults []
  simpa using this

theorem calcScore_ge_of_title_eq {q : List Char} {item : IndexedItem} {now : Int}
    (h : lowerStr item.title = lowerStr q) :
    15 ≤ calculateRelevanceScore q item now := by
  unfold calculateRelevanceScore
  rw [if_pos h, h, containsSub_self, if_pos rfl]
  have h2 : (0 : ℚ) ≤ if containsSub (lowerStr q) (lowerStr item.content) then 2 else 0 := by
    split <;> norm_num
  have h3 : (0 : ℚ) ≤
      if ((now - item.timestamp : ℚ) / (1000 * 60 * 60 * 24)) < 30 then 1 else 0 := by
    split <;> norm_num
  have h4 : (0 : ℚ) ≤ if item.type = .bookmark then (1 / 2 : ℚ) else 0 := by
    split <;> norm_num
  linarith

theorem calcScore_le_of_title_ne {q : List Char} {item : IndexedItem} {now : Int}
    (h : lowerStr item.title ≠ lowerStr q) :
    calculateRelevanceScore q item now ≤ 17 / 2 := by
  unfold calculateRelevanceScore
  rw [if_neg h]
  have h1 : (if containsSub (lowerStr q) (lowerStr item.title) then (5 : ℚ) else 0) ≤ 5 := by
    split <;> norm_num
  have h2 : (if containsSub (lowerStr q) (lowerStr item.content) then (2 : ℚ) else 0) ≤ 2 := by
    split <;> norm_num
  have h3 : (if ((now - item.timestamp : ℚ) / (1000 * 60 * 60 * 24)) < 30
      then (1 : ℚ) else 0) ≤ 1 := by
    split <;> norm_num
  have h4 : (if item.type = .bookmark then (1 / 2 : ℚ) else 0) ≤ 1 / 2 := by
    split <;> norm_num
  linarith

theorem keywordBody_ok {s : EngineState}
    {oracle : List Char → Nat → Except (List Char) (List (List Char))}
    {q : List Char} {maxResults : Nat} {now : Int} {res : List SearchResult}
    (h : keywordBody s oracle q maxResults now = .ok res) :
    ∃ raw, keywordRawIds oracle (extractTerms (cleanQuery q)) maxResults = .ok raw ∧
      res = sortKeyDesc (fun x => x.score + x.relevance)
        (scoreLoop s.items (cleanQuery q) now maxResults 0
          ((dedupFirst raw).take maxResults)) := by
  unfold keywordBody at h
  cases hraw : keywordRawIds oracle (extractTerms (cleanQuery q)) maxResults with
  | ok raw =>
    rw [hraw] at h
    simp only [Except.map] at h
    injection h with h2
    exact ⟨raw, rfl, h2.symm⟩
  | error e =>
    rw [hraw] at h
    simp [Except.map] at h

theorem enumSearch_item_mem {s : EngineState} {q : List Char} {maxResults : Nat}
    {r : SearchResult} (h : r ∈ enumSearch s q maxResults) :
    (∃ e ∈ s.items, e.2 = r.item) ∧ (includeTypes q).contains r.item.type = true := by
  unfold enumSearch at h
  have hmem : r.item ∈
      (sortKeyDesc (fun it => it.timestamp)
        ((s.items.map (fun e => e.2)).filter
          (fun it => (includeTypes q).contains it.type))).take maxResults := by
    have := List.mem_map_of_mem (fun x => x.item) h
    rwa [enumWithRel_map_item] at this
  have hsorted := List.mem_of_mem_take hmem
  have hfiltered := (mem_sortKeyDesc (fun it => it.timestamp) r.item _).mp hsorted
  have hf := List.mem_filter.mp hfiltered
  refine ⟨?_, hf.2⟩
  rcases List.mem_map.mp hf.1 with ⟨e, he, heq⟩
  exact ⟨e, he, heq⟩

theorem searchReadyW_item_mem {s : EngineState}
    {oracle : List Char → Nat → Except (List Char) (List (List Char))}
    {q : List Char} {maxResults : Nat} {now : Int} {r : SearchResult}
    (h : r ∈ searchReadyW s oracle q maxResults now) :
    ∃ e ∈ s.items, e.2 = r.item := by
  unfold searchReadyW at h
  split at h
  · exact absurd h (List.not_mem_nil r)
  · split at h
    · exact absurd h (List.not_mem_nil r)
    · split at h
      · rename_i res hok
        unfold searchBodyE at hok
        split at hok
        · injection hok with hres
          rw [← hres] at h
          exact (enumSearch_item_mem h).1
        · obtain ⟨raw, _, hdef⟩ := keywordBody_ok hok
          rw [hdef] at h
          have hscore := (mem_sortKeyDesc _ r _).mp h
          obtain ⟨id, _, hget, _, _⟩ := scoreLoop_mem hscore
          obtain ⟨e, he, _, hv⟩ := mapGet_mem hget
          exact ⟨e, he, hv⟩
      · exact absurd h (List.not_mem_nil r)

/-! ## Claim theorems -/

/-- **C1** (`search` contract, `indexer.ts` lines 208-345): the embedding of
`search` is a total function (it never throws); it returns `[]` when the
query trims to nothing, returns `[]` when the (post-initialization) document
map is empty, and returns `[]` whenever the `try` body signals an internal
indexing error (for any index oracle, hence for any failure of the term
search); and the actual `search` is `searchWith` applied to the real
FlexSearch oracle. -/
theorem claim_c1_search_contract (s : EngineState) (st : StorageState)
    (oracle : List Char → Nat → Except (List Char) (List (List Char)))
    (q : List Char) (maxResults : Nat) (now : Int) :
    search s st q maxResults now =
      searchWith s st (flexOracle (initEngine s st).index) q maxResults now ∧
    (trimWS q = [] → searchWith s st oracle q maxResults now = []) ∧
    ((initEngine s st).items = [] → searchWith s st oracle q maxResults now = []) ∧
    (∀ e, searchBodyE (initEngine s st) oracle q maxResults now = .error e →
      searchWith s st oracle q maxResults now = []) := by
  refine ⟨rfl, fun hq => ?_, fun hempty => ?_, fun e herr => ?_⟩
  · unfold searchWith searchReadyW
    rw [if_pos hq]
  · unfold searchWith searchReadyW
    rw [hempty]
    simp
  · unfold searchWith searchReadyW
    rw [herr]
    split
    · rfl
    · split <;> rfl

/-- Witness for C1: the whitespace query, the empty index, and an
always-raising oracle all produce `[]` on concrete states. -/
theorem claim_c1_search_contract_witness :
    searchWith exStateAB exSt0 errOracle (lc "   ") 20 0 = [] ∧
    searchWith exStateEmpty exSt0 errOracle (lc "zebra") 20 0 = [] ∧
    searchWith exStateAB exSt0 errOracle (lc "zebra") 20 0 = [] := by
  refine ⟨?_, ?_, ?_⟩
  · exact (claim_c1_search_contract exStateAB exSt0 errOracle (lc "   ") 20 0).2.1
      (by with_unfolding_all decide)
  · exact (claim_c1_search_contract exStateEmpty exSt0 errOracle (lc "zebra") 20 0).2.2.1
      (by with_unfolding_all decide)
  · exact (claim_c1_search_contract exStateAB exSt0 errOracle (lc "zebra") 20 0).2.2.2
      (lc "boom") (by with_unfolding_all rfl)

/-- **C3** (intent classification, `indexer.ts` lines 224-269): a query is
classified list-all exactly when its lowercased form matches the enumerate
vocabulary (the four `listAllPatterns`); the classification is insensitive
to case; and on a non-whitespace query over a non-empty map, `search`
dispatches to the enumeration branch exactly on a vocabulary match and to
the keyword branch otherwise. -/
theorem claim_c3_intent_classification (q : List Char) (s : EngineState)
    (oracle : List Char → Nat → Except (List Char) (List (List Char)))
    (maxResults : Nat) (now : Int) :
    isListAllQuery q = matchesEnumVocab (lowerStr q) ∧
    isListAllQuery (lowerStr q) = isListAllQuery q ∧
    (isListAllQuery q = true → trimWS q ≠ [] → s.items ≠ [] →
      searchReadyW s oracle q maxResults now = enumSearch s q maxResults) ∧
    (isListAllQuery q = false → trimWS q ≠ [] → s.items ≠ [] →
      searchReadyW s oracle q maxResults now =
        keywordSearchTotal s oracle q maxResults now) := by
  have hdispatch : ∀ hq : trimWS q ≠ [], ∀ hitems : s.items ≠ [],
      searchReadyW s oracle q maxResults now =
        match searchBodyE s oracle q maxResults now with
        | .ok r => r
        | .error _ => [] := by
    intro hq hitems
    unfold searchReadyW
    rw [if_neg hq, if_neg (by rw [List.isEmpty_iff]; exact hitems)]
  refine ⟨rfl, ?_, fun htrue hq hitems => ?_, fun hfalse hq hitems => ?_⟩
  · unfold isListAllQuery
    rw [lowerStr_idem]
  · rw [hdispatch hq hitems]
    unfold searchBodyE
    rw [if_pos htrue]
  · rw [hdispatch hq hitems]
    unfold searchBodyE
    rw [if_neg (by rw [hfalse]; simp)]
    rfl

/-- Witness for C3: `"show"` is enumeration intent, `"zebra"` keyword
intent, on a concrete two-document engine. -/
theorem claim_c3_intent_classification_witness :
    searchReadyW exStateAB errOracle (lc "show") 20 0 =
      enumSearch exStateAB (lc "show") 20 ∧
    searchReadyW exStateAB errOracle (lc "zebra") 20 0 =
      keywordSearchTotal exStateAB errOracle (lc "zebra") 20 0 := by
  constructor
  · exact (claim_c3_intent_classification (lc "show") exStateAB errOracle 20 0).2.2.1
      (by with_unfolding_all decide) (by with_unfolding_all decide)
      (by with_unfolding_all decide)
  · exact (claim_c3_intent_classification (lc "zebra") exStateAB errOracle 20 0).2.2.2
      (by with_unfolding_all decide) (by with_unfolding_all decide)
      (by with_unfolding_all decide)

/-- **C9** (ContextAssembler, `worker.ts` lines 266-300): the assembled
context never contains an entry of a disabled source type, is truncated to
`settings.maxResults`, and every kept entry is the
`{title, url, snippet-or-truncated-content, type, timestamp}` projection of
an enabled result. -/
theorem claim_c9_context_assembly (results : List SearchResult)
    (settings : AppSettings) :
    (∀ entry ∈ handleChatRequestContext results settings,
      sourceEnabled settings.enabledSources entry.type = true) ∧
    (handleChatRequestContext results settings).length ≤ settings.maxResults ∧
    (∀ entry ∈ handleChatRequestContext results settings,
      ∃ r ∈ results, sourceEnabled settings.enabledSources r.item.type = true ∧
        entry = projectEntry r) := by
  unfold handleChatRequestContext
  refine ⟨?_, ?_, ?_⟩
  · intro entry hmem
    rcases List.mem_map.mp hmem with ⟨r, hr, heq⟩
    have hrf := List.mem_filter.mp (List.mem_of_mem_take hr)
    rw [← heq]
    exact hrf.2
  · rw [List.length_map, List.length_take]
    exact min_le_left _ _
  · intro entry hmem
    rcases List.mem_map.mp hmem with ⟨r, hr, heq⟩
    have hrf := List.mem_filter.mp (List.mem_of_mem_take hr)
    exact ⟨r, hrf.1, hrf.2, heq.symm⟩

/-- Witness for C9: with history disabled and budget 1, the surviving entry
is bookmark-typed and the context length is within budget. -/
theorem claim_c9_context_assembly_witness :
    sourceEnabled (⟨true, false, true⟩ : EnabledSources)
      (projectEntry ⟨exBm1, 2, 1⟩).type = true ∧
    (handleChatRequestContext [⟨exDocA, 1, 1⟩, ⟨exBm1, 2, 1⟩]
      ⟨⟨true, false, true⟩, 1⟩).length ≤ 1 := by
  constructor
  · exact (claim_c9_context_assembly [⟨exDocA, 1, 1⟩, ⟨exBm1, 2, 1⟩]
      ⟨⟨true, false, true⟩, 1⟩).1 (projectEntry ⟨exBm1, 2, 1⟩)
      (by with_unfolding_all decide)
  · exact (claim_c9_context_assembly [⟨exDocA, 1, 1⟩, ⟨exBm1, 2, 1⟩]
      ⟨⟨true, false, true⟩, 1⟩).2.1

/-- **C10** (`getStats`, `indexer.ts` lines 427-439): before initialization
the stats are exactly `(0, 0)` and do not depend on the storage contents (no
read of the serialized index can influence them); after initialization
`totalItems` is the size of the in-memory document map. -/
theorem claim_c10_getStats (s : EngineState) (st st2 : StorageState) :
    (s.isInitialized = false →
      getStats s st = (0, 0) ∧ getStats s st = getStats s st2) ∧
    (s.isInitialized = true → (getStats s st).1 = s.items.length) := by
  constructor
  · intro h
    unfold getStats
    rw [h]
    simp
  · intro h
    unfold getStats
    rw [h]
    simp

/-- Witness for C10: an uninitialized engine reports `(0, 0)` even over
storage holding a non-empty serialized index; the initialized two-document
engine reports 2 items. -/
theorem claim_c10_getStats_witness :
    getStats (⟨false, emptyFlex, []⟩ : EngineState)
      (⟨[], lc "junk", [], [], []⟩ : StorageState) = (0, 0) ∧
    (getStats exStateAB exSt0).1 = exStateAB.items.length := by
  constructor
  · exact ((claim_c10_getStats ⟨false, emptyFlex, []⟩
      ⟨[], lc "junk", [], [], []⟩ exSt0).1 rfl).1
  · exact (claim_c10_getStats exStateAB exSt0 exSt0).2 rfl

/-- **C7** (`removeItem` then `search`, `indexer.ts` lines 387-402 and
196-206): after `removeItem(id)` completes, no search (any query, limit,
clock) returns a result carrying that id — regardless of how many
`addItem`s with the id preceded, since the document map keys each item by
its id and `removeItem` deletes the key.  The hypothesis is the key
invariant every reachable state satisfies (`addToIndex` keys by `item.id`). -/
theorem claim_c7_remove_then_search (s : EngineState) (st : StorageState)
    (itemId q : List Char) (maxResults : Nat) (now : Int)
    (hwf : ItemsWF s.items) :
    itemId ∉ ((search (removeItem s st itemId).1 (removeItem s st itemId).2
      q maxResults now).map (fun r => r.item.id)) := by
  intro hmem
  rcases List.mem_map.mp hmem with ⟨r, hr, hid⟩
  have hinit : (removeItem s st itemId).1.isInitialized = true :=
    initEngine_isInitialized s st
  unfold search at hr
  rw [initEngine_of_isInitialized _ hinit] at hr
  obtain ⟨e, he, hev⟩ := searchReadyW_item_mem hr
  have heitems : e ∈ mapDelete itemId (initEngine s st).items := he
  have hne := mapDelete_key_ne heitems
  have hwf2 : ItemsWF (mapDelete itemId (initEngine s st).items) :=
    itemsWF_mapDelete itemId (itemsWF_initEngine st hwf)
  have hrid : r.item.id = e.1 := by
    rw [← hev]
    exact hwf2 e heitems
  exact hne (by rw [← hrid, hid])

/-- Witness for C7: add the same bookmark twice, remove it once; a search
for its unique term returns nothing carrying its id. -/
theorem claim_c7_remove_then_search_witness :
    lc "x1" ∉ ((search exAfterRemove.1 exAfterRemove.2 (lc "fox") 20 0).map
      (fun r => r.item.id)) :=
  claim_c7_remove_then_search
    (addItem (addItem exStateEmpty exSt0 exItemX).1
      (addItem exStateEmpty exSt0 exItemX).2 exItemX).1
    (addItem (addItem exStateEmpty exSt0 exItemX).1
      (addItem exStateEmpty exSt0 exItemX).2 exItemX).2
    (lc "x1") (lc "fox") 20 0 (by with_unfolding_all decide)

/-- **C5 counterexample** (`indexer.ts` lines 279-314): with `limit = 1`
and the keyword query `aaa bbb` over four documents, the deduplicated union
of raw matches has 4 elements — more than `2×limit = 2`.  The per-term cap
is `2×limit`, but the union across terms is not capped. -/
theorem claim_c5_counterexample :
    isListAllQuery (lc "aaa bbb") = false ∧
    (dedupFirst (flexRawIds exIx4 (extractTerms (cleanQuery (lc "aaa bbb"))) 1)).length
      = 4 ∧
    ¬ ((dedupFirst (flexRawIds exIx4
        (extractTerms (cleanQuery (lc "aaa bbb"))) 1)).length ≤ 2 * 1) := by
  with_unfolding_all decide

/-- **C5 amended**: the accumulated union of matched ids is duplicate-free
(first-seen order) and bounded by `terms × 2×limit` — each individual
`index.search` call is capped at `2×limit`, but the union across terms is
only bounded by the number of extracted terms times that cap; and this pure
accumulation is exactly what the keyword branch computes under the real
index oracle. -/
theorem claim_c5_raw_union_bound (ix : FlexIndex) (q : List Char)
    (maxResults : Nat) :
    (dedupFirst (flexRawIds ix (extractTerms (cleanQuery q)) maxResults)).length ≤
      (extractTerms (cleanQuery q)).length * (maxResults * 2) ∧
    (dedupFirst (flexRawIds ix (extractTerms (cleanQuery q)) maxResults)).Nodup ∧
    keywordRawIds (flexOracle ix) (extractTerms (cleanQuery q)) maxResults =
      .ok (flexRawIds ix (extractTerms (cleanQuery q)) maxResults) := by
  refine ⟨?_, nodup_dedupFirst _, keywordRawIds_flex ix _ maxResults⟩
  exact le_trans (length_dedupFirst_le _) (flexRawIds_length_le ix _ maxResults)

/-- **C8 counterexample** (`indexer.ts` lines 159-174): a history record
whose `url` is present but equal to the empty string (with a non-empty
title) produces no document, although both fields are present — the filter
uses JS truthiness, not presence. -/
theorem claim_c8_counterexample :
    exBadHist.url ≠ none ∧ exBadHist.title ≠ none ∧
    convertHistoryToIndexedItems 0 [exBadHist] = [] := by
  with_unfolding_all decide

/-- **C8 amended**: the history normalizer emits exactly one document per
record whose `url` and `title` are both present *and non-empty* (JS-truthy),
and no document for any other record. -/
theorem claim_c8_history_normalization (hs : List HistoryItem) (now : Int) :
    (convertHistoryToIndexedItems now hs).length =
      (hs.filter (fun h => truthyS h.url && truthyS h.title)).length ∧
    (∀ h ∈ hs, (truthyS h.url && truthyS h.title) = true →
      histToItem now h ∈ convertHistoryToIndexedItems now hs) ∧
    (∀ d ∈ convertHistoryToIndexedItems now hs,
      ∃ h ∈ hs, (truthyS h.url && truthyS h.title) = true ∧
        d = histToItem now h) := by
  unfold convertHistoryToIndexedItems
  refine ⟨List.length_map _ _, ?_, ?_⟩
  · intro h hmem htruthy
    exact List.mem_map_of_mem _ (List.mem_filter.mpr ⟨hmem, htruthy⟩)
  · intro d hd
    rcases List.mem_map.mp hd with ⟨h, hh, heq⟩
    have hf := List.mem_filter.mp hh
    exact ⟨h, hf.1, hf.2, heq.symm⟩

/-- Witness for C8: a record with non-empty url and title yields its
document. -/
theorem claim_c8_history_normalization_witness :
    histToItem 0 (⟨lc "h2", some (lc "u"), some (lc "t"), some 1, none, none⟩ :
      HistoryItem) ∈
      convertHistoryToIndexedItems 0
        [⟨lc "h2", some (lc "u"), some (lc "t"), some 1, none, none⟩] :=
  (claim_c8_history_normalization
    [⟨lc "h2", some (lc "u"), some (lc "t"), some 1, none, none⟩] 0).2.1
    ⟨lc "h2", some (lc "u"), some (lc "t"), some 1, none, none⟩
    (by with_unfolding_all decide) (by with_unfolding_all decide)

/-- **C2 counterexample** (`rebuildIndex`, `indexer.ts` lines 78-130): the
method clears the live index and document map *before* the `await`ed
storage reads, so the cleared state is observable by a concurrently
scheduled search; on a concrete one-document engine that observed state is
neither the old state nor the new state, and a search run against it
returns `[]` although both the old and the rebuilt state match the query. -/
theorem claim_c2_counterexample :
    rebuildClear exStateOld ∈ rebuildObservable exStateOld exStRebuild 0 ∧
    rebuildClear exStateOld ≠ exStateOld ∧
    rebuildClear exStateOld ≠ rebuildFinalEngine exStateOld exStRebuild 0 ∧
    search exStateOld exStRebuild (lc "zzz") 20 0 ≠ [] ∧
    search (rebuildClear exStateOld) exStRebuild (lc "zzz") 20 0 = [] ∧
    search (rebuildFinalEngine exStateOld exStRebuild 0) exStRebuild
      (lc "zzz") 20 0 ≠ [] := by
  with_unfolding_all decide

/-- **C2 amended**: `rebuildIndex` is not atomic — it clears the active
index and map in place and then repopulates them after the storage reads;
but the only engine states observable at its `await` points are the fully
cleared one (empty map and index) and the fully rebuilt one, never a
partially populated map. -/
theorem claim_c2_rebuild_observable (s : EngineState) (st : StorageState)
    (now : Int) (t : EngineState) (h : t ∈ rebuildObservable s st now) :
    (t.items = [] ∧ t.index = emptyFlex) ∨ t = rebuildFinalEngine s st now := by
  rcases List.mem_cons.mp h with hc | hc
  · left
    rw [hc]
    exact ⟨rfl, rfl⟩
  · right
    exact List.mem_singleton.mp hc

/-- Witness for C2: the cleared state is among the observable states of the
concrete rebuild. -/
theorem claim_c2_rebuild_observable_witness :
    ((rebuildClear exStateOld).items = [] ∧
      (rebuildClear exStateOld).index = emptyFlex) ∨
    rebuildClear exStateOld = rebuildFinalEngine exStateOld exStRebuild 0 :=
  claim_c2_rebuild_observable exStateOld exStRebuild 0 (rebuildClear exStateOld)
    (by with_unfolding_all decide)

/-- The enumeration branch, in isolation: only wanted types, timestamps
non-increasing, truncated to the limit, constant score 10, strictly
decreasing position-based relevance. -/
theorem enumSearch_props (s : EngineState) (q : List Char) (maxResults : Nat) :
    (∀ r ∈ enumSearch s q maxResults,
      (includeTypes q).contains r.item.type = true) ∧
    ((enumSearch s q maxResults).map (fun r => r.item.timestamp)).Pairwise
      (fun a b => b ≤ a) ∧
    (enumSearch s q maxResults).length ≤ maxResults ∧
    (∀ r ∈ enumSearch s q maxResults, r.score = 10) ∧
    ((enumSearch s q maxResults).map (fun r => r.relevance)).Pairwise
      (fun a b => b < a) := by
  refine ⟨?_, ?_, ?_, ?_, ?_⟩
  · intro r hr
    exact (enumSearch_item_mem hr).2
  · unfold enumSearch
    rw [show (fun r : SearchResult => r.item.timestamp) =
        (fun it : IndexedItem => it.timestamp) ∘ (fun r : SearchResult => r.item)
      from rfl]
    rw [← List.map_map, enumWithRel_map_item]
    refine List.pairwise_map.mpr ?_
    exact (pairwise_sortKeyDesc (fun it : IndexedItem => it.timestamp) _).sublist
      (List.take_sublist maxResults _)
  · unfold enumSearch
    rw [enumWithRel_length, List.length_take]
    exact min_le_left _ _
  · intro r hr
    exact enumWithRel_score maxResults 0 _ hr
  · unfold enumSearch
    exact enumWithRel_rel_strict maxResults 0 _
      (by rw [Nat.zero_add, List.length_take]; exact min_le_left _ _)

/-- **C6 counterexample** (`indexer.ts` lines 234-268): two bookmarks with
the same timestamp; the enumeration query `bookmark` returns both, so the
timestamps are not *strictly* descending. -/
theorem claim_c6_counterexample :
    isListAllQuery (lc "bookmark") = true ∧
    (search exStateBm exSt0 (lc "bookmark") 20 0).map (fun r => r.item.timestamp)
      = [5, 5] ∧
    ¬ (((search exStateBm exSt0 (lc "bookmark") 20 0).map
        (fun r => r.item.timestamp)).Pairwise (fun a b => b < a)) := by
  with_unfolding_all decide

/-- **C6 amended**: for every enumeration-intent query, the results contain
only documents of the source types named in the query (all three when none
is named — the `includeTypes` computation), are sorted by timestamp in
non-increasing order (strictly descending only when timestamps are
distinct), number at most `limit`, all carry the fixed base score 10, and
the position-based relevance is strictly decreasing, preserving the sorted
order. -/
theorem claim_c6_enumeration (s : EngineState) (st : StorageState)
    (q : List Char) (maxResults : Nat) (now : Int)
    (henum : isListAllQuery q = true) :
    (∀ r ∈ search s st q maxResults now,
      (includeTypes q).contains r.item.type = true) ∧
    ((search s st q maxResults now).map (fun r => r.item.timestamp)).Pairwise
      (fun a b => b ≤ a) ∧
    (search s st q maxResults now).length ≤ maxResults ∧
    (∀ r ∈ search s st q maxResults now, r.score = 10) ∧
    ((search s st q maxResults now).map (fun r => r.relevance)).Pairwise
      (fun a b => b < a) := by
  have hres : search s st q maxResults now = [] ∨
      search s st q maxResults now =
        enumSearch (initEngine s st) q maxResults := by
    unfold search searchReadyW
    split
    · exact Or.inl rfl
    · split
      · exact Or.inl rfl
      · right
        unfold searchBodyE
        rw [if_pos henum]
  rcases hres with hres | hres <;> rw [hres]
  · refine ⟨by simp, by simp, by simp, by simp, by simp⟩
  · exact enumSearch_props (initEngine s st) q maxResults

/-- Witness for C6: the two-bookmark engine under the `bookmark` query. -/
theorem claim_c6_enumeration_witness :
    (search exStateBm exSt0 (lc "bookmark") 20 0).length ≤ 20 ∧
    ((search exStateBm exSt0 (lc "bookmark") 20 0).map
      (fun r => r.item.timestamp)).Pairwise (fun a b => b ≤ a) :=
  ⟨(claim_c6_enumeration exStateBm exSt0 (lc "bookmark") 20 0
      (by with_unfolding_all decide)).2.2.1,
   (claim_c6_enumeration exStateBm exSt0 (lc "bookmark") 20 0
      (by with_unfolding_all decide)).2.1⟩

/-- **C4 counterexample** (`indexer.ts` lines 347-371 with 273-275): the
keyword query `the zebra` is exactly the title of document `a`, yet the
stop-word cleaning reduces the query to `zebra` before scoring, so document
`b` (titled exactly `zebra`) outscores it and ranks first. -/
theorem claim_c4_counterexample :
    isListAllQuery (lc "the zebra") = false ∧
    exDocA.title = lc "the zebra" ∧
    mapGet (lc "a") exStateAB.items = some exDocA ∧
    (search exStateAB exSt0 (lc "the zebra") 20 0).map (fun r => r.item.id) =
      [lc "b", lc "a"] := by
  with_unfolding_all decide

/-- **C4 amended**: exact-title-first holds for the *cleaned* query: if the
lowercased title of a mapped document equals the lowercased cleaned query,
the document appears among the first `limit` deduplicated raw matches, and
no other raw match has that exact title, then that document is ranked
first.  (The original claim fails because the query is cleaned before
scoring, and because a document outside the truncated raw-match list cannot
be ranked at all.) -/
theorem claim_c4_exact_title_first (s : EngineState) (st : StorageState)
    (q : List Char) (maxResults : Nat) (now : Int) (did : List Char)
    (d : IndexedItem)
    (hinit : s.isInitialized = true)
    (hwf : ItemsWF s.items)
    (hq : trimWS q ≠ [])
    (henum : isListAllQuery q = false)
    (hget : mapGet did s.items = some d)
    (htitle : lowerStr d.title = lowerStr (cleanQuery q))
    (hin : did ∈ (dedupFirst (flexRawIds s.index (extractTerms (cleanQuery q))
        maxResults)).take maxResults)
    (huniq : ∀ id2 ∈ (dedupFirst (flexRawIds s.index
        (extractTerms (cleanQuery q)) maxResults)).take maxResults,
      id2 ≠ did →
        (mapGet id2 s.items).map (fun d2 => lowerStr d2.title) ≠
          some (lowerStr (cleanQuery q))) :
    (search s st q maxResults now).head?.map (fun r => r.item) = some d := by
  have hitems : s.items ≠ [] := by
    intro hnil
    rw [hnil] at hget
    simp [mapGet] at hget
  have hsearch : search s st q maxResults now =
      sortKeyDesc (fun r : SearchResult => r.score + r.relevance)
        (scoreLoop s.items (cleanQuery q) now maxResults 0
          ((dedupFirst (flexRawIds s.index (extractTerms (cleanQuery q))
            maxResults)).take maxResults)) := by
    unfold search
    rw [initEngine_of_isInitialized st hinit]
    unfold searchReadyW
    rw [if_neg hq, if_neg (by rw [List.isEmpty_iff]; exact hitems)]
    unfold searchBodyE
    rw [if_neg (by rw [henum]; simp)]
    unfold keywordBody
    rw [keywordRawIds_flex]
    rfl
  have hlen : ((dedupFirst (flexRawIds s.index (extractTerms (cleanQuery q))
      maxResults)).take maxResults).length ≤ maxResults := by
    rw [List.length_take]
    exact min_le_left _ _
  have hnodup : ((dedupFirst (flexRawIds s.index (extractTerms (cleanQuery q))
      maxResults)).take maxResults).Nodup :=
    List.Nodup.sublist (List.take_sublist _ _) (nodup_dedupFirst _)
  obtain ⟨j, hj0, hjlt, hxmem⟩ :=
    @scoreLoop_mem_of_get s.items (cleanQuery q) now maxResults
      ((dedupFirst (flexRawIds s.index (extractTerms (cleanQuery q))
        maxResults)).take maxResults) did d 0 hin hget
  have hjmax : j < maxResults := by omega
  have hmaxpos : 0 < maxResults := by omega
  have hmQ : (0 : ℚ) < (maxResults : ℚ) := by exact_mod_cast hmaxpos
  have hxrel : (0 : ℚ) <
      ((maxResults : ℚ) - (j : ℚ)) / (maxResults : ℚ) := by
    apply div_pos ?_ hmQ
    have hjQ : (j : ℚ) < (maxResults : ℚ) := by exact_mod_cast hjmax
    linarith
  have hxscore : (15 : ℚ) ≤ calculateRelevanceScore (cleanQuery q) d now :=
    calcScore_ge_of_title_eq htitle
  have hmax : ∀ y ∈ scoreLoop s.items (cleanQuery q) now maxResults 0
      ((dedupFirst (flexRawIds s.index (extractTerms (cleanQuery q))
        maxResults)).take maxResults),
      y ≠ (⟨d, calculateRelevanceScore (cleanQuery q) d now,
        ((maxResults : ℚ) - (j : ℚ)) / (maxResults : ℚ)⟩ : SearchResult) →
      (fun r : SearchResult => r.score + r.relevance) y <
      (fun r : SearchResult => r.score + r.relevance)
        (⟨d, calculateRelevanceScore (cleanQuery q) d now,
          ((maxResults : ℚ) - (j : ℚ)) / (maxResults : ℚ)⟩ : SearchResult) := by
    intro y hy hyx
    obtain ⟨id2, hid2, hget2, hyscore, j2, hj20, hj2lt, hyrel⟩ := scoreLoop_mem hy
    by_cases hcase : id2 = did
    · exfalso
      rw [hcase] at hget2
      have hyd : y.item = d := Option.some.inj (hget2.symm.trans hget)
      exact hyx (scoreLoop_item_unique hwf hnodup hy hxmem (by rw [hyd]))
    · have hneti : lowerStr y.item.title ≠ lowerStr (cleanQuery q) := by
        intro heq
        exact huniq id2 hid2 hcase (by rw [hget2, Option.map_some', heq])
      have hscore_le : y.score ≤ 17 / 2 := by
        rw [hyscore]
        exact calcScore_le_of_title_ne hneti
      have hrel_le : y.relevance ≤ 1 := by
        rw [hyrel, div_le_one hmQ]
        have hj2Q : (0 : ℚ) ≤ (j2 : ℚ) := by positivity
        linarith
      show y.score + y.relevance <
        calculateRelevanceScore (cleanQuery q) d now +
          ((maxResults : ℚ) - (j : ℚ)) / (maxResults : ℚ)
      linarith
  obtain ⟨t, ht⟩ := sortKeyDesc_head
    (fun r : SearchResult => r.score + r.relevance)
    (⟨d, calculateRelevanceScore (cleanQuery q) d now,
      ((maxResults : ℚ) - (j : ℚ)) / (maxResults : ℚ)⟩ : SearchResult)
    hxmem hmax
  rw [hsearch, ht]
  rfl

/-- Witness for C4 amended: on the two-zebra engine, the cleaned query
`zebra` is exactly document `b`'s title and `b` ranks first. -/
theorem claim_c4_exact_title_first_witness :
    (search exStateAB exSt0 (lc "zebra") 20 0).head?.map (fun r => r.item) =
      some exDocB :=
  claim_c4_exact_title_first exStateAB exSt0 (lc "zebra") 20 0 (lc "b") exDocB
    rfl (by with_unfolding_all decide) (by with_unfolding_all decide)
    (by with_unfolding_all decide) (by with_unfolding_all decide)
    (by with_unfolding_all decide) (by with_unfolding_all decide)
    (by with_unfolding_all decide)
